import Mathlib

/-!
Verification development for the `here-poi-scraper` repository
(`src/main.py`).  The Python source is shallowly embedded here:

* floating-point coordinates are modelled by exact rationals (`ℚ`);
* the curvature-dependent radius measure (`Rectangle.radius` with a
  `haversine.Unit`, a transcendental function) is an explicit parameter
  `rad : Rectangle → ℚ` of the functions that consume it;
* the recursion of `Rectangle.subdivide` and `HerePlacesScraper.scrape`
  is made total by an explicit `fuel` argument; exhausted fuel models
  Python's `RecursionError`, and the other failure modes (`IndexError`,
  the missing-credentials `Exception`, `TypeError` on a failed request)
  are modelled by the error side of `Option` / `Except`;
* the sqlite table `places` (insertion-ordered rows, `UNIQUE(place_id)`)
  is modelled by a `List Place`, and the HTTP `browse` call by an
  abstract function `Rectangle → Option (List Place)` (`none` models a
  non-200 response, which makes `browse` return `None` in Python).
-/

namespace HerePoi

/-- Rectangle data class of `main.py`: four bounds, longitude/latitude
order, modelled with exact rational arithmetic. -/
structure Rectangle where
  min_x : ℚ
  min_y : ℚ
  max_x : ℚ
  max_y : ℚ
deriving DecidableEq, Repr, Inhabited

/-- Truncation toward zero of an exact rational, modelling Python's
`int()` conversion applied to the (exact) quotient `n / columns`. -/
def truncQ (q : ℚ) : ℤ := if 0 ≤ q then ⌊q⌋ else ⌈q⌉

/-- Centroid of a rectangle (`Rectangle.centroid` in `main.py`). -/
def Rectangle.centroid (r : Rectangle) : ℚ × ℚ :=
  ((r.min_x + r.max_x) / 2, (r.min_y + r.max_y) / 2)

/-- Squared cartesian radius of a rectangle.  `Rectangle.radius` in
`main.py` with `unit=None` is the square root of this quantity; the
square root itself is irrational in general, so guards that compare a
radius are parametrised over an abstract measure `rad` instead. -/
def Rectangle.radiusSq (r : Rectangle) : ℚ :=
  (r.max_x - r.min_x) ^ 2 + (r.max_y - r.min_y) ^ 2

/-- One pass of the subdivision loop in `Rectangle.subdivide`
(`main.py` lines 91–105): the list built by the `for n in
range(rows * columns)` loop, with `subdivision_row = int(n / columns)`
and `subdivision_column = n % columns` (Python `%` on integers is
floor-mod, i.e. `Int.fmod`). -/
def Rectangle.subdivideStep (r : Rectangle) (rows columns : ℤ) : List Rectangle :=
  (List.range (rows * columns).toNat).map (fun (n : ℕ) =>
    let rect_width := r.max_x - r.min_x
    let rect_height := r.max_y - r.min_y
    let subdivision_width := rect_width / (columns : ℚ)
    let subdivision_height := rect_height / (rows : ℚ)
    let subdivision_row : ℤ := truncQ ((n : ℚ) / (columns : ℚ))
    let subdivision_column : ℤ := Int.fmod (n : ℤ) columns
    { min_x := r.min_x + subdivision_width * (subdivision_column : ℚ)
      min_y := r.min_y + subdivision_height * (subdivision_row : ℚ)
      max_x := r.min_x + subdivision_width * ((subdivision_column : ℚ) + 1)
      max_y := r.min_y + subdivision_height * ((subdivision_row : ℚ) + 1) })

/-- `Rectangle.subdivide` of `main.py` (lines 71–116).  `rad` stands for
`fun s => s.radius(max_radius_units)`, the radius measure selected by
the `max_radius_units` argument.  A `columnsOpt` of `none` models the
Python default `columns=None` (resolved to `rows`).  The guard
`max_radius and (subdivisions[0].radius(...) > max_radius)` is truthy
exactly when `max_radius` is present and nonzero and the comparison
holds.  `none` as a result models a raised exception: `IndexError` when
`subdivisions` is empty and the guard inspects `subdivisions[0]`, or
`RecursionError` when the fuel runs out. -/
def Rectangle.subdivide (rad : Rectangle → ℚ) :
    ℕ → Rectangle → ℤ → Option ℤ → Option ℚ → Option (List Rectangle)
  | 0, _, _, _, _ => none
  | fuel + 1, r, rows, columnsOpt, max_radius =>
    let columns := columnsOpt.getD rows
    let subdivisions := r.subdivideStep rows columns
    match max_radius with
    | none => some subdivisions
    | some mr =>
      if mr = 0 then some subdivisions
      else
        match subdivisions with
        | [] => none
        | first :: _ =>
          if mr < rad first then
            (subdivisions.mapM (fun s =>
              Rectangle.subdivide rad fuel s rows (some columns) (some mr))).map
              List.flatten
          else some subdivisions

/-- Membership of a point in the closed rectangle. -/
def Rectangle.containsPt (r : Rectangle) (x y : ℚ) : Prop :=
  r.min_x ≤ x ∧ x ≤ r.max_x ∧ r.min_y ≤ y ∧ y ≤ r.max_y

/-- Membership of a point in the open interior of a rectangle; two
sub-regions overlap when some point lies in both interiors. -/
def Rectangle.strictContainsPt (r : Rectangle) (x y : ℚ) : Prop :=
  r.min_x < x ∧ x < r.max_x ∧ r.min_y < y ∧ y < r.max_y

/-- The sub-rectangle the subdivision grid places at a given row and
column: row-major cell `(row, col)` of an `rows × cols` grid over `R`. -/
def gridCell (R : Rectangle) (rows cols row col : ℤ) : Rectangle :=
  { min_x := R.min_x + (R.max_x - R.min_x) / (cols : ℚ) * (col : ℚ)
    min_y := R.min_y + (R.max_y - R.min_y) / (rows : ℚ) * (row : ℚ)
    max_x := R.min_x + (R.max_x - R.min_x) / (cols : ℚ) * ((col : ℚ) + 1)
    max_y := R.min_y + (R.max_y - R.min_y) / (rows : ℚ) * ((row : ℚ) + 1) }

/-- A HERE place record: the provider-assigned `id` used for
deduplication, a `data` field standing for the remaining uninterpreted
provider fields, and the `scraped` timestamp that `insert_places`
writes into the record before storing it. -/
structure Place where
  id : String
  data : String
  scraped : Option ℤ
deriving DecidableEq, Repr

/-- `HerePlacesScraper.insert_places` (`main.py` lines 281–316) on the
model store: for each place in order, set its `scraped` field and
insert it unless a row with the same `place_id` already exists
(`UNIQUE(place_id)` makes the sqlite `INSERT` raise `IntegrityError`,
which is swallowed).  Returns the updated table (in rowid order)
together with the number of newly inserted rows. -/
def insert_places : List Place → List Place → Option ℤ → List Place × ℕ
  | db, [], _ => (db, 0)
  | db, p :: rest, ts =>
    if p.id ∈ db.map Place.id then
      insert_places db rest ts
    else
      let res := insert_places (db ++ [{ p with scraped := ts }]) rest ts
      (res.1, res.2 + 1)

/-- `HerePlacesScraper.iter_places`: `SELECT place_id, data FROM places`
yields the rows in insertion order, which is exactly the model list. -/
def iter_places (db : List Place) : List Place := db

/-- Python's `<` on integer lists: elementwise lexicographic comparison,
a strict prefix is smaller. -/
def pyListLt : List ℕ → List ℕ → Bool
  | [], [] => false
  | [], _ :: _ => true
  | _ :: _, [] => false
  | a :: xs, b :: ys => if a < b then true else if b < a then false else pyListLt xs ys

/-- The mutable run state of one `HerePlacesScraper`: the sqlite table
and the three crawl counters initialised to 0 in `__init__`. -/
structure ScraperState where
  places : List Place
  n_requests_made : ℕ
  n_places_encountered : ℕ
  n_total_new_places : ℕ
deriving DecidableEq, Repr

/-- Fresh state: empty table, all counters zero. -/
def ScraperState.init : ScraperState := ⟨[], 0, 0, 0⟩

/-- HERE caps browse requests at 250 km; `main.py` uses 240 to be safe. -/
def MAX_RADIUS_KM : ℚ := 240

/-- The state after one leaf request that returned `places`: the body
of the non-skipped branch of the scrape loop (insert, then bump the
three counters).  The wall-clock capture time passed to `insert_places`
is modelled by the constant timestamp `0`; no observable property in
this development depends on its value. -/
def leafUpdate (st : ScraperState) (places : List Place) : ScraperState :=
  { places := (insert_places st.places places (some 0)).1
    n_requests_made := st.n_requests_made + 1
    n_places_encountered := st.n_places_encountered + places.length
    n_total_new_places := st.n_total_new_places + (insert_places st.places places (some 0)).2 }

/-- The `for i, subdivision in enumerate(subdivisions)` loop of
`HerePlacesScraper.scrape` (`main.py` lines 435–475), one level of the
descent.  `recur` is the recursive `self.scrape` call one level deeper,
`pid` is the Python `_id` accumulator, and the returned pair carries the
value of the local variable `skip_to` after the loop together with the
final state.  Browse failure (`None` response) makes `len(places)` in
Python raise a `TypeError`, modelled by the error branch. -/
def scrapeLoop (browse : Rectangle → Option (List Place))
    (recur : Rectangle → Option (List ℕ) → List ℕ → ScraperState →
      Except (String × ScraperState) ScraperState) :
    List (ℕ × Rectangle) → List ℕ → Option (List ℕ) → ScraperState →
    Except (String × ScraperState) (Option (List ℕ) × ScraperState)
  | [], _, skip_to, st => .ok (skip_to, st)
  | (i, subdivision) :: rest, pid, skip_to, st =>
    let new_id := pid ++ [i]
    -- skipping functionality part 1
    let skip2 : Option (List ℕ) :=
      if skip_to = some pid then none
      else
        match skip_to with
        | none => none
        | some s => if pyListLt (s.take new_id.length) new_id then none else some s
    match skip2 with
    | none =>
      match browse subdivision with
      | none => .error ("TypeError", st)
      | some places =>
        let st2 : ScraperState := leafUpdate st places
        if places.length > 90 then
          match recur subdivision none new_id st2 with
          | .error e => .error e
          | .ok st3 => scrapeLoop browse recur rest pid none st3
        else
          scrapeLoop browse recur rest pid none st2
    | some s =>
      -- skipping functionality part 2
      if s.take new_id.length = new_id then
        match recur subdivision (some s) new_id st with
        | .error e => .error e
        | .ok st2 => scrapeLoop browse recur rest pid (some s) st2
      else
        scrapeLoop browse recur rest pid (some s) st

/-- Body of `HerePlacesScraper.scrape` after the credentials check:
subdivide with `rows=3`, `max_radius=240`, `max_radius_units=KM`
(the kilometre radius measure is the `rad` parameter), then run the
loop.  Each recursive `self.scrape` re-checks `self.here`, which is
unchanged and present, so recursion proceeds directly to this body. -/
def scrapeGo (browse : Rectangle → Option (List Place)) (rad : Rectangle → ℚ) :
    ℕ → Rectangle → Option (List ℕ) → List ℕ → ScraperState →
    Except (String × ScraperState) ScraperState
  | 0, _, _, _, st => .error ("RecursionError", st)
  | fuel + 1, rect, skip_to, pid, st =>
    match Rectangle.subdivide rad (fuel + 1) rect 3 none (some MAX_RADIUS_KM) with
    | none => .error ("RecursionError", st)
    | some subdivisions =>
      match scrapeLoop browse (scrapeGo browse rad fuel) subdivisions.enum
          pid skip_to st with
      | .error e => .error e
      | .ok p => .ok p.2

/-- The scraper object: `here` is `None` when no credentials were given
(`__init__`, lines 260–266), otherwise it carries the provider's
`browse` method. -/
structure HerePlacesScraper where
  here : Option (Rectangle → Option (List Place))

/-- `HerePlacesScraper.scrape` (`main.py` lines 410–475): raise
immediately when no provider is configured, else descend.  The error
value carries the state at the moment the exception was raised, so an
error result also documents that the store and counters kept the value
they had on entry. -/
def HerePlacesScraper.scrape (rad : Rectangle → ℚ) (self : HerePlacesScraper)
    (fuel : ℕ) (rect : Rectangle) (skip_to : Option (List ℕ)) (pid : List ℕ)
    (st : ScraperState) : Except (String × ScraperState) ScraperState :=
  match self.here with
  | none => .error ("No app_id or app_code provided", st)
  | some browse => scrapeGo browse rad fuel rect skip_to pid st

/-! ### Shared helper lemmas -/

/-- The subdivision loop always produces `rows * columns` rectangles
(clamped at zero, as `range` of a negative product is empty). -/
theorem subdivideStep_length (R : Rectangle) (rows cols : ℤ) :
    (R.subdivideStep rows cols).length = (rows * cols).toNat := by
  simp [Rectangle.subdivideStep]

/-- Python's lexicographic `<` on lists is irreflexive. -/
theorem pyListLt_self : ∀ l : List ℕ, pyListLt l l = false
  | [] => rfl
  | _ :: xs => by simp [pyListLt, pyListLt_self xs]

/-- With a present, nonzero `max_radius` whose comparison against the
first sub-region fails, one unfolding of `subdivide` returns the plain
single-step subdivision. -/
theorem subdivide_of_radius_le (rad : Rectangle → ℚ) (fuel : ℕ) (R : Rectangle)
    (rows : ℤ) (columnsOpt : Option ℤ) (mr : ℚ) (hmr : mr ≠ 0)
    (hrad : ∀ s, rad s ≤ mr) :
    Rectangle.subdivide rad (fuel + 1) R rows columnsOpt (some mr) =
      if R.subdivideStep rows (columnsOpt.getD rows) = [] then none
      else some (R.subdivideStep rows (columnsOpt.getD rows)) := by
  cases hstep : R.subdivideStep rows (columnsOpt.getD rows) with
  | nil => simp [Rectangle.subdivide, hmr, hstep]
  | cons first rest =>
    simp [Rectangle.subdivide, hmr, hstep, not_lt.mpr (hrad first)]

/-! ### C8: missing credentials -/

/-- C8: for every region, resume address, recursion budget and state,
when no provider is configured (`here is None`), `scrape` fails
immediately with the configuration error and the state carried by the
error is exactly the entry state: no request was issued and the store
and counters are unchanged. -/
theorem scrape_not_configured (rad : Rectangle → ℚ) (fuel : ℕ) (rect : Rectangle)
    (skip_to : Option (List ℕ)) (pid : List ℕ) (st : ScraperState) :
    HerePlacesScraper.scrape rad ⟨none⟩ fuel rect skip_to pid st =
      .error ("No app_id or app_code provided", st) := rfl

/-! ### C10: zero max radius disables refinement -/

/-- C10: a `max_radius` of `0` behaves exactly like an absent
`max_radius`: the guard `max_radius and ...` is falsy, so the plain
single-step `rows × columns` subdivision is returned no matter what the
radius measure says. -/
theorem subdivide_zero_max_radius_no_refine (rad : Rectangle → ℚ) (fuel : ℕ)
    (R : Rectangle) (rows : ℤ) (columnsOpt : Option ℤ) :
    Rectangle.subdivide rad (fuel + 1) R rows columnsOpt none =
        some (R.subdivideStep rows (columnsOpt.getD rows))
    ∧ Rectangle.subdivide rad (fuel + 1) R rows columnsOpt (some 0) =
        some (R.subdivideStep rows (columnsOpt.getD rows)) := by
  constructor <;> simp [Rectangle.subdivide]

/-! ### C2: no validation of rows/columns -/

/-- C2 (amended): `subdivide` performs no validation of its arguments.
For `rows ≤ 0` or `columns ≤ 0` (and no `max_radius`) it does not fail:
it returns a list of `(rows * columns).toNat` sub-regions, which is the
empty list whenever `rows * columns ≤ 0`. -/
theorem subdivide_nonpositive_returns (rad : Rectangle → ℚ) (fuel : ℕ)
    (R : Rectangle) (rows cols : ℤ) (h : rows ≤ 0 ∨ cols ≤ 0) :
    Rectangle.subdivide rad (fuel + 1) R rows (some cols) none =
        some (R.subdivideStep rows cols)
    ∧ (R.subdivideStep rows cols).length = (rows * cols).toNat
    ∧ (rows * cols ≤ 0 → R.subdivideStep rows cols = []) := by
  refine ⟨by simp [Rectangle.subdivide], subdivideStep_length R rows cols, fun hle => ?_⟩
  have hlen : (R.subdivideStep rows cols).length = 0 := by
    rw [subdivideStep_length]; omega
  exact List.eq_nil_of_length_eq_zero hlen

/-- Witness for C2 (amended) at `rows = 0`, `columns = 1`. -/
theorem subdivide_nonpositive_returns_witness :
    Rectangle.subdivide (fun _ => 0) 1 ⟨0, 0, 1, 1⟩ 0 (some 1) none =
        some (Rectangle.subdivideStep ⟨0, 0, 1, 1⟩ 0 1)
    ∧ (Rectangle.subdivideStep ⟨0, 0, 1, 1⟩ 0 1).length = ((0 : ℤ) * 1).toNat :=
  ⟨(subdivide_nonpositive_returns (fun _ => 0) 0 ⟨0, 0, 1, 1⟩ 0 1 (Or.inl le_rfl)).1,
   (subdivide_nonpositive_returns (fun _ => 0) 0 ⟨0, 0, 1, 1⟩ 0 1 (Or.inl le_rfl)).2.1⟩

/-- Counterexample to C2 as stated: at `rows = 0`, `columns = 1` the
call `subdivide(0, 1)` does not fail with any error — it returns the
empty list. -/
theorem subdivide_invalid_argument_refuted :
    (0 : ℤ) ≤ 0 ∧
      Rectangle.subdivide (fun _ => 0) 1 ⟨0, 0, 1, 1⟩ 0 (some 1) none = some [] :=
  ⟨le_rfl, by decide⟩

/-! ### C5: deduplicating insert -/

/-- Inserting a batch only ever appends to the table, and the count of
newly inserted records is exactly the number of appended rows. -/
theorem insert_places_append : ∀ (places db : List Place) (ts : Option ℤ),
    ∃ ext : List Place, insert_places db places ts = (db ++ ext, ext.length)
  | [], db, ts => ⟨[], by simp [insert_places]⟩
  | p :: rest, db, ts => by
    by_cases hmem : p.id ∈ db.map Place.id
    · obtain ⟨ext, h⟩ := insert_places_append rest db ts
      exact ⟨ext, by simp [insert_places, hmem, h]⟩
    · obtain ⟨ext, h⟩ := insert_places_append rest (db ++ [{ p with scraped := ts }]) ts
      refine ⟨{ p with scraped := ts } :: ext, ?_⟩
      simp [insert_places, hmem, h]

/-- The set of stored ids after a batch insert is the union of the ids
already stored and the ids of the batch. -/
theorem insert_places_mem_id : ∀ (places db : List Place) (ts : Option ℤ) (x : String),
    x ∈ (insert_places db places ts).1.map Place.id ↔
      x ∈ db.map Place.id ∨ x ∈ places.map Place.id
  | [], db, ts, x => by simp [insert_places]
  | p :: rest, db, ts, x => by
    by_cases hmem : p.id ∈ db.map Place.id
    · rw [show insert_places db (p :: rest) ts = insert_places db rest ts by
        simp [insert_places, hmem]]
      rw [insert_places_mem_id rest db ts x]
      simp only [List.map_cons, List.mem_cons]
      constructor
      · rintro (hd | hr)
        · exact Or.inl hd
        · exact Or.inr (Or.inr hr)
      · rintro (hd | he | hr)
        · exact Or.inl hd
        · exact Or.inl (he ▸ hmem)
        · exact Or.inr hr
    · rw [show insert_places db (p :: rest) ts =
          ((insert_places (db ++ [{ p with scraped := ts }]) rest ts).1,
           (insert_places (db ++ [{ p with scraped := ts }]) rest ts).2 + 1) by
        simp [insert_places, hmem]]
      simp only
      have ih := insert_places_mem_id rest (db ++ [{ p with scraped := ts }]) ts x
      rw [ih]
      simp only [List.map_append, List.map_cons, List.map_nil, List.mem_append,
        List.mem_cons, List.mem_singleton, List.not_mem_nil, or_false]
      tauto

/-- Batch insertion preserves the uniqueness invariant on stored ids. -/
theorem insert_places_nodup : ∀ (places db : List Place) (ts : Option ℤ),
    (db.map Place.id).Nodup → ((insert_places db places ts).1.map Place.id).Nodup
  | [], db, ts, hdb => by simpa [insert_places] using hdb
  | p :: rest, db, ts, hdb => by
    by_cases hmem : p.id ∈ db.map Place.id
    · rw [show insert_places db (p :: rest) ts = insert_places db rest ts by
        simp [insert_places, hmem]]
      exact insert_places_nodup rest db ts hdb
    · rw [show (insert_places db (p :: rest) ts).1 =
          (insert_places (db ++ [{ p with scraped := ts }]) rest ts).1 by
        simp [insert_places, hmem]]
      refine insert_places_nodup rest _ ts ?_
      simp only [List.map_append, List.map_cons, List.map_nil]
      rw [List.nodup_append]
      exact ⟨hdb, List.nodup_singleton _, by simpa using fun hx => hmem hx⟩

/-- A batch whose ids are all already stored inserts nothing and leaves
the table unchanged. -/
theorem insert_places_all_dup : ∀ (places db : List Place) (ts : Option ℤ),
    (∀ p ∈ places, p.id ∈ db.map Place.id) → insert_places db places ts = (db, 0)
  | [], db, ts, _ => by simp [insert_places]
  | p :: rest, db, ts, h => by
    have hmem : p.id ∈ db.map Place.id := h p (by simp)
    rw [show insert_places db (p :: rest) ts = insert_places db rest ts by
      simp [insert_places, hmem]]
    exact insert_places_all_dup rest db ts fun q hq => h q (by simp [hq])

/-- A batch of pairwise-distinct ids, none already stored, is inserted
in full. -/
theorem insert_places_all_new : ∀ (places db : List Place) (ts : Option ℤ),
    (places.map Place.id).Nodup → (∀ p ∈ places, p.id ∉ db.map Place.id) →
    (insert_places db places ts).2 = places.length
  | [], db, ts, _, _ => by simp [insert_places]
  | p :: rest, db, ts, hnd, hfresh => by
    have hmem : p.id ∉ db.map Place.id := hfresh p (by simp)
    rw [show insert_places db (p :: rest) ts =
        ((insert_places (db ++ [{ p with scraped := ts }]) rest ts).1,
         (insert_places (db ++ [{ p with scraped := ts }]) rest ts).2 + 1) by
      simp [insert_places, hmem]]
    simp only [List.map_cons, List.nodup_cons] at hnd
    have : (insert_places (db ++ [{ p with scraped := ts }]) rest ts).2 = rest.length := by
      refine insert_places_all_new rest _ ts hnd.2 fun q hq => ?_
      simp only [List.map_append, List.map_cons, List.map_nil, List.mem_append,
        List.mem_singleton, List.not_mem_nil, or_false, List.mem_cons]
      rintro (hdb | heq)
      · exact hfresh q (by simp [hq]) hdb
      · exact hnd.1 (heq ▸ List.mem_map_of_mem Place.id hq)
    simp [this]

/-- C5: deduplicating batch insertion.  Under the stored-id uniqueness
invariant: (0) `iter_places` enumerates exactly the table;
(1) uniqueness of ids is preserved, so an iteration never yields two
records with the same id; (2) the returned count is exactly the number
of rows the table grew by; (3) an id is stored afterwards iff it was
stored before or occurs in the batch; (4) re-inserting any record whose
id is already stored changes nothing and contributes 0 — in particular
a second call with the same record contributes 0; (5) two records with
the same fresh id in one batch insert exactly once; (6) a batch of N
pairwise-distinct fresh ids inserts all N, after which iteration yields
exactly `db.length + N` records. -/
theorem insert_places_dedup_spec (db places : List Place) (ts : Option ℤ)
    (hdb : (db.map Place.id).Nodup) :
    iter_places (insert_places db places ts).1 = (insert_places db places ts).1
    ∧ ((insert_places db places ts).1.map Place.id).Nodup
    ∧ (insert_places db places ts).1.length = db.length + (insert_places db places ts).2
    ∧ (∀ x : String, x ∈ (insert_places db places ts).1.map Place.id ↔
        x ∈ db.map Place.id ∨ x ∈ places.map Place.id)
    ∧ (∀ q : Place, q.id ∈ (insert_places db places ts).1.map Place.id →
        insert_places (insert_places db places ts).1 [q] ts =
          ((insert_places db places ts).1, 0))
    ∧ (∀ p q : Place, q.id = p.id → p.id ∉ db.map Place.id →
        (insert_places db [p, q] ts).2 = 1)
    ∧ ((places.map Place.id).Nodup → (∀ p ∈ places, p.id ∉ db.map Place.id) →
        (insert_places db places ts).2 = places.length ∧
        (iter_places (insert_places db places ts).1).length =
          db.length + places.length) := by
  obtain ⟨ext, hext⟩ := insert_places_append places db ts
  refine ⟨rfl, insert_places_nodup places db ts hdb, ?_, insert_places_mem_id places db ts, ?_, ?_, ?_⟩
  · rw [hext]; simp
  · intro q hq
    exact insert_places_all_dup [q] _ ts (by simpa using hq)
  · intro p q hq hp
    simp [insert_places, hp, hq]
  · intro hnd hfresh
    have hcount := insert_places_all_new places db ts hnd hfresh
    have hlen : ext.length = places.length := by
      rw [hext] at hcount; simpa using hcount
    refine ⟨hcount, ?_⟩
    rw [iter_places, hext]
    simp [hlen]

/-- Witness for C5: a fresh two-record batch on an empty store keeps
ids unique and reports two newly inserted records. -/
theorem insert_places_dedup_spec_witness :
    ((insert_places [] [⟨"a", "1", none⟩, ⟨"b", "2", none⟩] none).1.map Place.id).Nodup
    ∧ (insert_places [] [⟨"a", "1", none⟩, ⟨"b", "2", none⟩] none).2 = 2 :=
  ⟨(insert_places_dedup_spec [] [⟨"a", "1", none⟩, ⟨"b", "2", none⟩] none (by simp)).2.1,
   ((insert_places_dedup_spec [] [⟨"a", "1", none⟩, ⟨"b", "2", none⟩] none
      (by simp)).2.2.2.2.2.2 (by decide) (by simp)).1⟩

/-! ### C6: resume filtering during the descent -/

/-- C6: resume filtering for one child at index `i` under an active
resume address `s`.  (1) If `s` equals the parent address, it is
cleared and this child (and the rest of the loop) proceeds exactly as
with no resume address.  (2) Otherwise, if `s` truncated to the child
address's length is lexicographically less than the child address,
`s` is likewise cleared and processing proceeds normally.  (3)
Otherwise the child is skipped outright — no request, no state change —
(4) unless the truncated prefix equals the child address exactly, in
which case the crawler recurses into this child with the still-active
resume address and issues no request at this level. -/
theorem scrape_resume_filtering (browse : Rectangle → Option (List Place))
    (recur : Rectangle → Option (List ℕ) → List ℕ → ScraperState →
      Except (String × ScraperState) ScraperState)
    (i : ℕ) (subdivision : Rectangle) (rest : List (ℕ × Rectangle))
    (pid : List ℕ) (st : ScraperState) (s : List ℕ) :
    (s = pid →
      scrapeLoop browse recur ((i, subdivision) :: rest) pid (some s) st =
        scrapeLoop browse recur ((i, subdivision) :: rest) pid none st)
    ∧ (s ≠ pid → pyListLt (s.take (pid ++ [i]).length) (pid ++ [i]) = true →
      scrapeLoop browse recur ((i, subdivision) :: rest) pid (some s) st =
        scrapeLoop browse recur ((i, subdivision) :: rest) pid none st)
    ∧ (s ≠ pid → pyListLt (s.take (pid ++ [i]).length) (pid ++ [i]) = false →
        s.take (pid ++ [i]).length ≠ pid ++ [i] →
      scrapeLoop browse recur ((i, subdivision) :: rest) pid (some s) st =
        scrapeLoop browse recur rest pid (some s) st)
    ∧ (s ≠ pid → pyListLt (s.take (pid ++ [i]).length) (pid ++ [i]) = false →
        s.take (pid ++ [i]).length = pid ++ [i] →
      scrapeLoop browse recur ((i, subdivision) :: rest) pid (some s) st =
        match recur subdivision (some s) (pid ++ [i]) st with
        | .error e => .error e
        | .ok st2 => scrapeLoop browse recur rest pid (some s) st2) := by
  refine ⟨?_, ?_, ?_, ?_⟩
  · intro h; subst h; simp [scrapeLoop]
  · intro hne hlt
    have hlt2 : pyListLt (List.take (pid.length + 1) s) (pid ++ [i]) = true := by
      simpa using hlt
    simp [scrapeLoop, hne, hlt2]
  · intro hne hlt hpre
    have hlt2 : pyListLt (List.take (pid.length + 1) s) (pid ++ [i]) = false := by
      simpa using hlt
    have hpre2 : List.take (pid.length + 1) s ≠ pid ++ [i] := by simpa using hpre
    simp [scrapeLoop, hne, hlt2, hpre2]
  · intro hne hlt hpre
    have hlt2 : pyListLt (List.take (pid.length + 1) s) (pid ++ [i]) = false := by
      simpa using hlt
    have hpre2 : List.take (pid.length + 1) s = pid ++ [i] := by simpa using hpre
    simp [scrapeLoop, hne, hlt2, hpre2, pyListLt_self]

/-- Witness for C6 (pure-skip case): resume address `[5]`, child `[0]`
of the root — the child is skipped with no state change. -/
theorem scrape_resume_filtering_witness :
    scrapeLoop (fun _ => some []) (fun _ _ _ st => .ok st) [(0, ⟨0, 0, 1, 1⟩)] []
        (some [5]) ScraperState.init =
      scrapeLoop (fun _ => some []) (fun _ _ _ st => .ok st) [] [] (some [5])
        ScraperState.init :=
  (scrape_resume_filtering (fun _ => some []) (fun _ _ _ st => .ok st) 0 ⟨0, 0, 1, 1⟩
    [] [] ScraperState.init [5]).2.2.1 (by decide) (by decide) (by decide)

/-! ### C7: overflow re-descent -/

/-- C7: a non-skipped child whose request returned `places` triggers a
recursive descent into that same child region (with a cleared resume
address) exactly when strictly more than 90 results came back; at 90 or
fewer the loop simply moves on to the next sibling.  In both cases the
child contributes exactly one request and one counter update
(`leafUpdate`). -/
theorem scrape_overflow_redescent (browse : Rectangle → Option (List Place))
    (recur : Rectangle → Option (List ℕ) → List ℕ → ScraperState →
      Except (String × ScraperState) ScraperState)
    (i : ℕ) (subdivision : Rectangle) (rest : List (ℕ × Rectangle))
    (pid : List ℕ) (st : ScraperState) (places : List Place)
    (hb : browse subdivision = some places) :
    (places.length > 90 →
      scrapeLoop browse recur ((i, subdivision) :: rest) pid none st =
        match recur subdivision none (pid ++ [i]) (leafUpdate st places) with
        | .error e => .error e
        | .ok st3 => scrapeLoop browse recur rest pid none st3)
    ∧ (places.length ≤ 90 →
      scrapeLoop browse recur ((i, subdivision) :: rest) pid none st =
        scrapeLoop browse recur rest pid none (leafUpdate st places)) := by
  constructor
  · intro h; simp [scrapeLoop, hb, h]
  · intro h; simp [scrapeLoop, hb, Nat.not_lt.mpr h]

/-- Witness for C7: a child returning 91 identical records (> 90)
re-descends into the same region after the counter update. -/
theorem scrape_overflow_redescent_witness :
    scrapeLoop (fun _ => some (List.replicate 91 ⟨"p", "", none⟩))
        (fun _ _ _ st => .ok st) [(0, ⟨0, 0, 1, 1⟩)] [] none ScraperState.init =
      scrapeLoop (fun _ => some (List.replicate 91 ⟨"p", "", none⟩))
        (fun _ _ _ st => .ok st) [] [] none
        (leafUpdate ScraperState.init (List.replicate 91 ⟨"p", "", none⟩)) :=
  (scrape_overflow_redescent (fun _ => some (List.replicate 91 ⟨"p", "", none⟩))
    (fun _ _ _ st => .ok st) 0 ⟨0, 0, 1, 1⟩ [] [] ScraperState.init
    (List.replicate 91 ⟨"p", "", none⟩) rfl).1 (by decide)

/-! ### C1: requests issued for a region with small leaves -/

/-- A run of the scrape loop with no active resume address, over
children whose requests all succeed with at most 90 results, ends
normally and issues exactly one request per child. -/
theorem scrapeLoop_small (browse : Rectangle → Option (List Place))
    (recur : Rectangle → Option (List ℕ) → List ℕ → ScraperState →
      Except (String × ScraperState) ScraperState)
    (hb : ∀ r : Rectangle, ∃ l, browse r = some l ∧ l.length ≤ 90) :
    ∀ (children : List (ℕ × Rectangle)) (pid : List ℕ) (st : ScraperState),
    ∃ st2 : ScraperState,
      scrapeLoop browse recur children pid none st = .ok (none, st2)
      ∧ st2.n_requests_made = st.n_requests_made + children.length
  | [], _, st => ⟨st, by simp [scrapeLoop]⟩
  | (i, sub) :: rest, pid, st => by
    obtain ⟨l, hbs, hlen⟩ := hb sub
    obtain ⟨st2, hloop, hcount⟩ :=
      scrapeLoop_small browse recur hb rest pid (leafUpdate st l)
    refine ⟨st2, ?_, ?_⟩
    · simpa [scrapeLoop, hbs, Nat.not_lt.mpr hlen] using hloop
    · rw [hcount]; simp only [leafUpdate, List.length_cons]; omega

/-- C1 (amended): scraping a region whose 3×3 subdivision is not
adaptively refined (every sub-region radius within the 240 km cap) and
whose children each yield at most 90 results issues exactly nine
provider requests — one per child of the 3×3 grid, none for the region
itself — performing nine counter updates and leaving the requests
counter nine higher than it started. -/
theorem scrape_small_leaves_nine_requests (browse : Rectangle → Option (List Place))
    (rad : Rectangle → ℚ) (rect : Rectangle) (st : ScraperState) (fuel : ℕ)
    (hrad : ∀ s : Rectangle, rad s ≤ MAX_RADIUS_KM)
    (hb : ∀ r : Rectangle, ∃ l, browse r = some l ∧ l.length ≤ 90) :
    ∃ st2 : ScraperState,
      HerePlacesScraper.scrape rad ⟨some browse⟩ (fuel + 1) rect none [] st = .ok st2
      ∧ st2.n_requests_made = st.n_requests_made + 9 := by
  have hne : rect.subdivideStep 3 3 ≠ [] := by
    intro hnil
    have hl := subdivideStep_length rect 3 3
    rw [hnil] at hl
    simp at hl
  have hsub : Rectangle.subdivide rad (fuel + 1) rect 3 none (some MAX_RADIUS_KM) =
      some (rect.subdivideStep 3 3) := by
    rw [subdivide_of_radius_le rad fuel rect 3 none MAX_RADIUS_KM
      (by norm_num [MAX_RADIUS_KM]) hrad]
    simp only [Option.getD_none]
    rw [if_neg hne]
  obtain ⟨st2, hloop, hcount⟩ := scrapeLoop_small browse (scrapeGo browse rad fuel) hb
    (rect.subdivideStep 3 3).enum [] st
  refine ⟨st2, ?_, ?_⟩
  · show scrapeGo browse rad (fuel + 1) rect none [] st = .ok st2
    simp only [scrapeGo, hsub]
    rw [hloop]
  · rw [hcount, List.enum_length, subdivideStep_length]
    rfl

/-- Witness for C1 (amended): a model region whose radius measure is
1 km everywhere and whose every request returns an empty result list. -/
theorem scrape_small_leaves_nine_requests_witness :
    ∃ st2 : ScraperState,
      HerePlacesScraper.scrape (fun _ => 1) ⟨some (fun _ => some [])⟩ 2 ⟨0, 0, 1, 1⟩
        none [] ScraperState.init = .ok st2
      ∧ st2.n_requests_made = ScraperState.init.n_requests_made + 9 :=
  scrape_small_leaves_nine_requests (fun _ => some []) (fun _ => 1) ⟨0, 0, 1, 1⟩
    ScraperState.init 1 (fun _ => by show (1 : ℚ) ≤ MAX_RADIUS_KM; decide)
    (fun _ => ⟨[], rfl, by decide⟩)

/-- Counterexample to C1 as stated: for a region whose every `Browse`
call yields 0 ≤ 90 results, `scrape` issues nine requests (one per
child of the 3×3 subdivision), so the requests counter ends at 9, not
at 1. -/
theorem scrape_single_request_refuted :
    (HerePlacesScraper.scrape (fun _ => 1) ⟨some (fun _ => some [])⟩ 2 ⟨0, 0, 1, 1⟩
        none [] ScraperState.init).toOption =
      some { places := [], n_requests_made := 9, n_places_encountered := 0,
             n_total_new_places := 0 }
    ∧ (9 : ℕ) ≠ 1 :=
  ⟨by decide, by decide⟩

/-! ### C9: subdivision preserves region validity -/

/-- Every sub-region produced by one subdivision pass has the parent's
width split by `cols` and height split by `rows`. -/
theorem subdivideStep_size {R : Rectangle} {rows cols : ℤ} {s : Rectangle}
    (hs : s ∈ R.subdivideStep rows cols) :
    s.max_x - s.min_x = (R.max_x - R.min_x) / (cols : ℚ)
    ∧ s.max_y - s.min_y = (R.max_y - R.min_y) / (rows : ℚ) := by
  simp only [Rectangle.subdivideStep, List.mem_map, List.mem_range] at hs
  obtain ⟨n, -, rfl⟩ := hs
  constructor <;> ring

/-- One subdivision pass of a valid region with positive row and column
counts yields only valid regions. -/
theorem subdivideStep_valid {R : Rectangle} (hx : R.min_x < R.max_x)
    (hy : R.min_y < R.max_y) {rows cols : ℤ} (hr : 0 < rows) (hc : 0 < cols) :
    ∀ s ∈ R.subdivideStep rows cols, s.min_x < s.max_x ∧ s.min_y < s.max_y := by
  intro s hs
  obtain ⟨hw, hh⟩ := subdivideStep_size hs
  have hcq : (0 : ℚ) < (cols : ℚ) := by exact_mod_cast hc
  have hrq : (0 : ℚ) < (rows : ℚ) := by exact_mod_cast hr
  have h1 : 0 < (R.max_x - R.min_x) / (cols : ℚ) := div_pos (by linarith) hcq
  have h2 : 0 < (R.max_y - R.min_y) / (rows : ℚ) := div_pos (by linarith) hrq
  constructor <;> linarith

/-- One-step unfolding of `subdivide` at a present `max_radius`. -/
theorem subdivide_succ_some (rad : Rectangle → ℚ) (fuel : ℕ) (R : Rectangle)
    (rows : ℤ) (columnsOpt : Option ℤ) (mr : ℚ) :
    Rectangle.subdivide rad (fuel + 1) R rows columnsOpt (some mr) =
      if mr = 0 then some (R.subdivideStep rows (columnsOpt.getD rows))
      else
        match R.subdivideStep rows (columnsOpt.getD rows) with
        | [] => none
        | first :: _ =>
          if mr < rad first then
            ((R.subdivideStep rows (columnsOpt.getD rows)).mapM (fun s =>
              Rectangle.subdivide rad fuel s rows (some (columnsOpt.getD rows))
                (some mr))).map List.flatten
          else some (R.subdivideStep rows (columnsOpt.getD rows)) := by
  show (let columns := columnsOpt.getD rows; _) = _
  cases hstep : R.subdivideStep rows (columnsOpt.getD rows) <;>
    simp only [Rectangle.subdivide, hstep]

/-- One-step unfolding of `subdivide` at a present nonzero `max_radius`
when the single-step subdivision is nonempty. -/
theorem subdivide_succ_some_cons (rad : Rectangle → ℚ) (fuel : ℕ) (R : Rectangle)
    (rows : ℤ) (columnsOpt : Option ℤ) (mr : ℚ) (first : Rectangle)
    (rest : List Rectangle) (hmr : mr ≠ 0)
    (hstep : R.subdivideStep rows (columnsOpt.getD rows) = first :: rest) :
    Rectangle.subdivide rad (fuel + 1) R rows columnsOpt (some mr) =
      if mr < rad first then
        ((first :: rest).mapM (fun s =>
          Rectangle.subdivide rad fuel s rows (some (columnsOpt.getD rows))
            (some mr))).map List.flatten
      else some (first :: rest) := by
  rw [subdivide_succ_some, if_neg hmr, hstep]

/-- Inversion for `mapM` over `Option`: every element of a successful
result comes from a successful application to some input element. -/
theorem mapM_option_mem {α β : Type} (f : α → Option β) :
    ∀ (l : List α) (L : List β), l.mapM f = some L → ∀ li ∈ L, ∃ a ∈ l, f a = some li
  | [], L, h => by
    simp only [List.mapM_nil, pure, Option.some.injEq] at h
    subst h; simp
  | a :: xs, L, h => by
    rw [List.mapM_cons] at h
    cases hfa : f a with
    | none => rw [hfa] at h; simp at h
    | some b =>
      rw [hfa] at h
      cases hxs : xs.mapM f with
      | none => rw [hxs] at h; simp at h
      | some bs =>
        rw [hxs] at h
        simp only [bind, Option.bind, pure, Option.some.injEq] at h
        subst h
        intro li hli
        rcases List.mem_cons.mp hli with rfl | hmem
        · exact ⟨a, by simp, hfa⟩
        · obtain ⟨c, hc1, hc2⟩ := mapM_option_mem f xs bs hxs li hmem
          exact ⟨c, by simp [hc1], hc2⟩

/-- Adaptive subdivision of a valid region with positive row/column
counts only ever outputs valid regions, at any recursion depth. -/
theorem subdivide_valid_aux (rad : Rectangle → ℚ) (rows cols : ℤ) (hr : 0 < rows)
    (hc : 0 < cols) (mr : ℚ) :
    ∀ (fuel : ℕ) (R : Rectangle), R.min_x < R.max_x → R.min_y < R.max_y →
      ∀ l, Rectangle.subdivide rad fuel R rows (some cols) (some mr) = some l →
      ∀ s ∈ l, s.min_x < s.max_x ∧ s.min_y < s.max_y
  | 0, R, hx, hy, l, h => by simp [Rectangle.subdivide] at h
  | fuel + 1, R, hx, hy, l, h => by
    by_cases hmr : mr = 0
    · rw [subdivide_succ_some, if_pos hmr, Option.getD_some] at h
      obtain rfl := Option.some.inj h
      exact subdivideStep_valid hx hy hr hc
    · cases hstep : R.subdivideStep rows cols with
      | nil =>
        rw [subdivide_succ_some, if_neg hmr, Option.getD_some, hstep] at h
        simp at h
      | cons first rest =>
        rw [subdivide_succ_some_cons rad fuel R rows (some cols) mr first rest hmr
          (by rw [Option.getD_some]; exact hstep), Option.getD_some] at h
        by_cases hlt : mr < rad first
        · rw [if_pos hlt] at h
          obtain ⟨L, hL, rfl⟩ := Option.map_eq_some'.mp h
          intro s hs
          obtain ⟨li, hli, hsli⟩ := List.mem_flatten.mp hs
          obtain ⟨a, ha, hfa⟩ := mapM_option_mem _ _ _ hL li hli
          have haval : a.min_x < a.max_x ∧ a.min_y < a.max_y := by
            refine subdivideStep_valid hx hy hr hc a ?_
            rw [hstep]; exact ha
          exact subdivide_valid_aux rad rows cols hr hc mr fuel a haval.1 haval.2
            li hfa s hsli
        · rw [if_neg hlt] at h
          obtain rfl := Option.some.inj h
          intro s hs
          refine subdivideStep_valid hx hy hr hc s ?_
          rw [hstep]; exact hs

/-- C9: for a valid region and positive row/column counts, every
sub-region returned by `subdivide` — both by the single subdivision
pass and by the adaptive recursion at any depth and for any radius
measure and cap — again satisfies the region validity invariant
`min_x < max_x ∧ min_y < max_y` (under exact arithmetic). -/
theorem subdivide_preserves_region_validity (R : Rectangle) (hx : R.min_x < R.max_x)
    (hy : R.min_y < R.max_y) (rows cols : ℤ) (hr : 0 < rows) (hc : 0 < cols) :
    (∀ s ∈ R.subdivideStep rows cols, s.min_x < s.max_x ∧ s.min_y < s.max_y)
    ∧ (∀ (rad : Rectangle → ℚ) (fuel : ℕ) (mrOpt : Option ℚ) (l : List Rectangle),
        Rectangle.subdivide rad fuel R rows (some cols) mrOpt = some l →
        ∀ s ∈ l, s.min_x < s.max_x ∧ s.min_y < s.max_y) := by
  refine ⟨subdivideStep_valid hx hy hr hc, ?_⟩
  intro rad fuel mrOpt l h s hs
  match fuel, mrOpt with
  | 0, _ => simp [Rectangle.subdivide] at h
  | fuel + 1, none =>
    simp only [Rectangle.subdivide, Option.getD_some, Option.some.injEq] at h
    subst h
    exact subdivideStep_valid hx hy hr hc s hs
  | fuel + 1, some mr =>
    exact subdivide_valid_aux rad rows cols hr hc mr (fuel + 1) R hx hy l h s hs

/-! ### C3: the subdivision grid is a row-major partition -/

/-- Truncation toward zero agrees with the floor on nonnegative input. -/
theorem truncQ_of_nonneg {q : ℚ} (h : 0 ≤ q) : truncQ q = ⌊q⌋ := if_pos h

/-- The floor of an exact integer quotient is Euclidean division (for a
positive divisor). -/
theorem floor_intCast_div_pos (a b : ℤ) (hb : 0 < b) :
    ⌊(a : ℚ) / (b : ℚ)⌋ = a / b := by
  have hb' : ((b.toNat : ℕ) : ℤ) = b := Int.toNat_of_nonneg hb.le
  have h1 : ((b.toNat : ℕ) : ℚ) = (b : ℚ) := by exact_mod_cast hb'
  rw [← h1, Rat.floor_intCast_div_natCast, hb']

/-- Element `n` of the subdivision list is the grid cell at row
`n / cols` and column `n % cols`: the enumeration is row-major. -/
theorem subdivideStep_getElem (R : Rectangle) (rows cols : ℤ) (hc : 0 < cols)
    (n : ℕ) (hn : n < (rows * cols).toNat) :
    (R.subdivideStep rows cols)[n]? =
      some (gridCell R rows cols ((n : ℤ) / cols) ((n : ℤ) % cols)) := by
  have hrow : truncQ ((n : ℚ) / (cols : ℚ)) = (n : ℤ) / cols := by
    rw [truncQ_of_nonneg (div_nonneg (by positivity) (by exact_mod_cast hc.le))]
    exact floor_intCast_div_pos n cols hc
  have hcol : Int.fmod (n : ℤ) cols = (n : ℤ) % cols := Int.fmod_eq_emod _ hc.le
  simp only [Rectangle.subdivideStep, List.getElem?_map, List.getElem?_range hn,
    Option.map_some', gridCell, hrow, hcol]

/-- Membership in the subdivision list, characterised through grid
cells. -/
theorem mem_subdivideStep_iff (R : Rectangle) {rows cols : ℤ} (hc : 0 < cols)
    (s : Rectangle) :
    s ∈ R.subdivideStep rows cols ↔
      ∃ n : ℕ, n < (rows * cols).toNat ∧
        s = gridCell R rows cols ((n : ℤ) / cols) ((n : ℤ) % cols) := by
  rw [List.mem_iff_getElem]
  constructor
  · rintro ⟨n, hlen, hget⟩
    have hn : n < (rows * cols).toNat := by rwa [subdivideStep_length] at hlen
    refine ⟨n, hn, ?_⟩
    have hchar := subdivideStep_getElem R rows cols hc n hn
    rw [List.getElem?_eq_getElem hlen, hget] at hchar
    exact Option.some.inj hchar
  · rintro ⟨n, hn, rfl⟩
    have hlen : n < (R.subdivideStep rows cols).length := by
      rw [subdivideStep_length]; exact hn
    refine ⟨n, hlen, ?_⟩
    have hchar := subdivideStep_getElem R rows cols hc n hn
    rw [List.getElem?_eq_getElem hlen] at hchar
    exact Option.some.inj hchar

/-- Row-major index arithmetic: the flat index `row * cols + col`
recovers its row and column under Euclidean division. -/
theorem rowMajor_index {rows cols row col : ℤ} (hc : 0 < cols) (h0r : 0 ≤ row)
    (hrr : row < rows) (h0c : 0 ≤ col) (hcc : col < cols) :
    (row * cols + col) / cols = row ∧ (row * cols + col) % cols = col
    ∧ 0 ≤ row * cols + col ∧ row * cols + col < rows * cols := by
  have hne : cols ≠ 0 := hc.ne'
  have hnn : 0 ≤ row * cols := mul_nonneg h0r hc.le
  have hlt : row * cols + col < rows * cols := by
    have h1 : (row + 1) * cols ≤ rows * cols :=
      mul_le_mul_of_nonneg_right (by omega) hc.le
    have h2 : (row + 1) * cols = row * cols + cols := by ring
    linarith
  refine ⟨?_, ?_, by linarith, hlt⟩
  · rw [add_comm, Int.add_mul_ediv_right col row hne,
      Int.ediv_eq_zero_of_lt h0c hcc, zero_add]
  · rw [add_comm, Int.add_mul_emod_self, Int.emod_eq_of_lt h0c hcc]

/-- Covering an interval `[0, w]` by `c` equal sub-intervals: a point
lies in the interval iff it lies in some sub-interval. -/
theorem cover_oneD {w : ℚ} (hw : 0 < w) {c : ℤ} (hc : 0 < c) (t : ℚ) :
    (0 ≤ t ∧ t ≤ w) ↔
      ∃ k : ℤ, 0 ≤ k ∧ k < c ∧ w / (c : ℚ) * (k : ℚ) ≤ t
        ∧ t ≤ w / (c : ℚ) * ((k : ℚ) + 1) := by
  have hcq : (0 : ℚ) < (c : ℚ) := by exact_mod_cast hc
  have hwq : 0 < w / (c : ℚ) := div_pos hw hcq
  constructor
  · rintro ⟨ht0, htw⟩
    have h0 : 0 ≤ ⌊t / (w / (c : ℚ))⌋ :=
      Int.floor_nonneg.mpr (div_nonneg ht0 hwq.le)
    refine ⟨min (c - 1) ⌊t / (w / (c : ℚ))⌋, le_min (by omega) h0,
      lt_of_le_of_lt (min_le_left _ _) (by omega), ?_, ?_⟩
    · have hk : min (c - 1) ⌊t / (w / (c : ℚ))⌋ ≤ ⌊t / (w / (c : ℚ))⌋ :=
        min_le_right _ _
      have h2 : ((min (c - 1) ⌊t / (w / (c : ℚ))⌋ : ℤ) : ℚ) ≤ t / (w / (c : ℚ)) :=
        le_trans (by exact_mod_cast hk) (Int.floor_le _)
      have h3 := (le_div_iff₀ hwq).mp h2
      linarith [h3, mul_comm ((min (c - 1) ⌊t / (w / (c : ℚ))⌋ : ℤ) : ℚ) (w / (c : ℚ))]
    · by_cases hcase : ⌊t / (w / (c : ℚ))⌋ ≤ c - 1
      · rw [min_eq_right hcase]
        have h3 : t / (w / (c : ℚ)) < (⌊t / (w / (c : ℚ))⌋ : ℚ) + 1 :=
          Int.lt_floor_add_one _
        have h4 := (div_lt_iff₀ hwq).mp h3
        linarith [h4, mul_comm ((⌊t / (w / (c : ℚ))⌋ : ℚ) + 1) (w / (c : ℚ))]
      · rw [min_eq_left (by omega)]
        have h4 : w / (c : ℚ) * (((c - 1 : ℤ) : ℚ) + 1) = w := by
          push_cast
          have : ((c : ℚ) - 1) + 1 = (c : ℚ) := by ring
          rw [this, div_mul_cancel₀ w hcq.ne']
        linarith [h4]
  · rintro ⟨k, hk0, hkc, hl, hu⟩
    have hk0q : (0 : ℚ) ≤ (k : ℚ) := by exact_mod_cast hk0
    have hk1 : ((k : ℚ) + 1) ≤ (c : ℚ) := by
      exact_mod_cast Int.add_one_le_iff.mpr hkc
    have h5 : (0 : ℚ) ≤ w / (c : ℚ) * (k : ℚ) := mul_nonneg hwq.le hk0q
    have h6 : w / (c : ℚ) * ((k : ℚ) + 1) ≤ w / (c : ℚ) * (c : ℚ) :=
      mul_le_mul_of_nonneg_left hk1 hwq.le
    rw [div_mul_cancel₀ w hcq.ne'] at h6
    exact ⟨by linarith, by linarith⟩

/-- A point strictly inside the `k`-th equal sub-interval determines
`k` as a floor. -/
theorem floor_eq_of_strict {u : ℚ} (hu : 0 < u) {k : ℤ} {t : ℚ}
    (h1 : u * (k : ℚ) < t) (h2 : t < u * ((k : ℚ) + 1)) : ⌊t / u⌋ = k := by
  rw [Int.floor_eq_iff]
  constructor
  · exact (le_div_iff₀ hu).mpr (by linarith [mul_comm u (k : ℚ)])
  · exact (div_lt_iff₀ hu).mpr (by linarith [mul_comm u ((k : ℚ) + 1)])

/-- The sub-regions of one subdivision pass cover exactly the parent
rectangle: no gap, and nothing outside the parent. -/
theorem subdivideStep_cover (R : Rectangle) (hx : R.min_x < R.max_x)
    (hy : R.min_y < R.max_y) {rows cols : ℤ} (hr : 0 < rows) (hc : 0 < cols)
    (x y : ℚ) :
    R.containsPt x y ↔ ∃ s ∈ R.subdivideStep rows cols, s.containsPt x y := by
  have hw : 0 < R.max_x - R.min_x := by linarith
  have hh : 0 < R.max_y - R.min_y := by linarith
  have hcq : (0 : ℚ) < (cols : ℚ) := by exact_mod_cast hc
  have hrq : (0 : ℚ) < (rows : ℚ) := by exact_mod_cast hr
  have hwc : 0 < (R.max_x - R.min_x) / (cols : ℚ) := div_pos hw hcq
  have hhr : 0 < (R.max_y - R.min_y) / (rows : ℚ) := div_pos hh hrq
  constructor
  · rintro ⟨hx1, hx2, hy1, hy2⟩
    obtain ⟨col, h0c, hcc, hcl, hcu⟩ :=
      (cover_oneD hw hc (x - R.min_x)).mp ⟨by linarith, by linarith⟩
    obtain ⟨row, h0r, hrr, hrl, hru⟩ :=
      (cover_oneD hh hr (y - R.min_y)).mp ⟨by linarith, by linarith⟩
    obtain ⟨hdiv, hmod, hnn, hlt⟩ := rowMajor_index hc h0r hrr h0c hcc
    refine ⟨gridCell R rows cols row col, ?_, ?_⟩
    · rw [mem_subdivideStep_iff R hc]
      refine ⟨(row * cols + col).toNat, (Int.toNat_lt_toNat (mul_pos hr hc)).mpr hlt, ?_⟩
      rw [Int.toNat_of_nonneg hnn, hdiv, hmod]
    · refine ⟨?_, ?_, ?_, ?_⟩ <;> simp only [gridCell] <;> linarith
  · rintro ⟨s, hs, hsx⟩
    rw [mem_subdivideStep_iff R hc] at hs
    obtain ⟨n, hn, rfl⟩ := hs
    have hnn : (0 : ℤ) ≤ (n : ℤ) := Int.ofNat_nonneg n
    have hnlt : (n : ℤ) < rows * cols := Int.lt_toNat.mp hn
    have h0col : 0 ≤ (n : ℤ) % cols := Int.emod_nonneg _ hc.ne'
    have hcol_lt : (n : ℤ) % cols < cols := Int.emod_lt_of_pos _ hc
    have h0row : 0 ≤ (n : ℤ) / cols := Int.ediv_nonneg hnn hc.le
    have hrow_lt : (n : ℤ) / cols < rows := by
      rw [Int.ediv_lt_iff_lt_mul hc]; linarith
    obtain ⟨h1, h2, h3, h4⟩ := hsx
    simp only [gridCell] at h1 h2 h3 h4
    have c0 : (0 : ℚ) ≤ (((n : ℤ) % cols : ℤ) : ℚ) := by exact_mod_cast h0col
    have r0 : (0 : ℚ) ≤ (((n : ℤ) / cols : ℤ) : ℚ) := by exact_mod_cast h0row
    have l1 : (0 : ℚ) ≤ (R.max_x - R.min_x) / (cols : ℚ) * (((n : ℤ) % cols : ℤ) : ℚ) :=
      mul_nonneg hwc.le c0
    have l3 : (0 : ℚ) ≤ (R.max_y - R.min_y) / (rows : ℚ) * (((n : ℤ) / cols : ℤ) : ℚ) :=
      mul_nonneg hhr.le r0
    have c1 : ((((n : ℤ) % cols : ℤ) : ℚ) + 1) ≤ (cols : ℚ) := by
      exact_mod_cast Int.add_one_le_iff.mpr hcol_lt
    have r1 : ((((n : ℤ) / cols : ℤ) : ℚ) + 1) ≤ (rows : ℚ) := by
      exact_mod_cast Int.add_one_le_iff.mpr hrow_lt
    have l2 : (R.max_x - R.min_x) / (cols : ℚ) * ((((n : ℤ) % cols : ℤ) : ℚ) + 1) ≤
        R.max_x - R.min_x := by
      have h5 := mul_le_mul_of_nonneg_left c1 hwc.le
      rwa [div_mul_cancel₀ _ hcq.ne'] at h5
    have l4 : (R.max_y - R.min_y) / (rows : ℚ) * ((((n : ℤ) / cols : ℤ) : ℚ) + 1) ≤
        R.max_y - R.min_y := by
      have h5 := mul_le_mul_of_nonneg_left r1 hhr.le
      rwa [div_mul_cancel₀ _ hrq.ne'] at h5
    exact ⟨by linarith, by linarith, by linarith, by linarith⟩

/-- Distinct sub-regions of one subdivision pass have disjoint open
interiors: there is no overlap. -/
theorem subdivideStep_disjoint (R : Rectangle) (hx : R.min_x < R.max_x)
    (hy : R.min_y < R.max_y) {rows cols : ℤ} (hr : 0 < rows) (hc : 0 < cols) :
    List.Pairwise (fun s t => ∀ x y : ℚ,
      ¬(s.strictContainsPt x y ∧ t.strictContainsPt x y))
      (R.subdivideStep rows cols) := by
  have hw : 0 < R.max_x - R.min_x := by linarith
  have hh : 0 < R.max_y - R.min_y := by linarith
  have hcq : (0 : ℚ) < (cols : ℚ) := by exact_mod_cast hc
  have hrq : (0 : ℚ) < (rows : ℚ) := by exact_mod_cast hr
  have hwc : 0 < (R.max_x - R.min_x) / (cols : ℚ) := div_pos hw hcq
  have hhr : 0 < (R.max_y - R.min_y) / (rows : ℚ) := div_pos hh hrq
  rw [List.pairwise_iff_getElem]
  intro i j hi hj hij x y hxy
  obtain ⟨hsi, hsj⟩ := hxy
  have hi' : i < (rows * cols).toNat := by rwa [subdivideStep_length] at hi
  have hj' : j < (rows * cols).toNat := by rwa [subdivideStep_length] at hj
  have hgi : (R.subdivideStep rows cols)[i] =
      gridCell R rows cols ((i : ℤ) / cols) ((i : ℤ) % cols) := by
    have hch := subdivideStep_getElem R rows cols hc i hi'
    rw [List.getElem?_eq_getElem hi] at hch
    exact Option.some.inj hch
  have hgj : (R.subdivideStep rows cols)[j] =
      gridCell R rows cols ((j : ℤ) / cols) ((j : ℤ) % cols) := by
    have hch := subdivideStep_getElem R rows cols hc j hj'
    rw [List.getElem?_eq_getElem hj] at hch
    exact Option.some.inj hch
  rw [hgi] at hsi
  rw [hgj] at hsj
  obtain ⟨a1, a2, a3, a4⟩ := hsi
  obtain ⟨b1, b2, b3, b4⟩ := hsj
  simp only [gridCell] at a1 a2 a3 a4 b1 b2 b3 b4
  have ecol : (i : ℤ) % cols = (j : ℤ) % cols := by
    have e1 := floor_eq_of_strict hwc (k := (i : ℤ) % cols) (t := x - R.min_x)
      (by linarith) (by linarith)
    have e2 := floor_eq_of_strict hwc (k := (j : ℤ) % cols) (t := x - R.min_x)
      (by linarith) (by linarith)
    exact e1.symm.trans e2
  have erow : (i : ℤ) / cols = (j : ℤ) / cols := by
    have e1 := floor_eq_of_strict hhr (k := (i : ℤ) / cols) (t := y - R.min_y)
      (by linarith) (by linarith)
    have e2 := floor_eq_of_strict hhr (k := (j : ℤ) / cols) (t := y - R.min_y)
      (by linarith) (by linarith)
    exact e1.symm.trans e2
  have hieq : (i : ℤ) = (j : ℤ) := by
    have d1 := Int.ediv_add_emod (i : ℤ) cols
    have d2 := Int.ediv_add_emod (j : ℤ) cols
    rw [← d1, ← d2, erow, ecol]
  have : i = j := by exact_mod_cast hieq
  omega

/-- C3: for a valid region and positive `rows`, `cols`, a call
`subdivide(rows, cols)` (no max radius) returns exactly `rows * cols`
sub-regions; the element at flat index `row * cols + col` is the grid
cell at that row and column (row-major enumeration); all sub-regions
have equal width `(max_x - min_x)/cols` and equal height
`(max_y - min_y)/rows`; their union covers the parent's bounding box
exactly (a point lies in the parent iff it lies in some sub-region);
and distinct sub-regions have disjoint interiors (no overlap). -/
theorem subdivide_row_major_partition (R : Rectangle) (hx : R.min_x < R.max_x)
    (hy : R.min_y < R.max_y) (rows cols : ℤ) (hr : 0 < rows) (hc : 0 < cols) :
    (∀ (rad : Rectangle → ℚ) (fuel : ℕ),
      Rectangle.subdivide rad (fuel + 1) R rows (some cols) none =
        some (R.subdivideStep rows cols))
    ∧ (R.subdivideStep rows cols).length = (rows * cols).toNat
    ∧ (∀ row col : ℤ, 0 ≤ row → row < rows → 0 ≤ col → col < cols →
        (R.subdivideStep rows cols)[(row * cols + col).toNat]? =
          some (gridCell R rows cols row col))
    ∧ (∀ s ∈ R.subdivideStep rows cols,
        s.max_x - s.min_x = (R.max_x - R.min_x) / (cols : ℚ)
        ∧ s.max_y - s.min_y = (R.max_y - R.min_y) / (rows : ℚ))
    ∧ (∀ x y : ℚ, R.containsPt x y ↔
        ∃ s ∈ R.subdivideStep rows cols, s.containsPt x y)
    ∧ List.Pairwise (fun s t => ∀ x y : ℚ,
        ¬(s.strictContainsPt x y ∧ t.strictContainsPt x y))
        (R.subdivideStep rows cols) := by
  refine ⟨fun rad fuel => by simp [Rectangle.subdivide],
    subdivideStep_length R rows cols, ?_,
    fun s hs => subdivideStep_size hs,
    subdivideStep_cover R hx hy hr hc,
    subdivideStep_disjoint R hx hy hr hc⟩
  intro row col h0r hrr h0c hcc
  obtain ⟨hdiv, hmod, hnn, hlt⟩ := rowMajor_index hc h0r hrr h0c hcc
  have hn : (row * cols + col).toNat < (rows * cols).toNat :=
    (Int.toNat_lt_toNat (mul_pos hr hc)).mpr hlt
  rw [subdivideStep_getElem R rows cols hc _ hn, Int.toNat_of_nonneg hnn, hdiv, hmod]

/-- Witness for C3 on the unit square split 2×2: four sub-regions, and
flat index `1 * 2 + 1 = 3` holds the cell at row 1, column 1. -/
theorem subdivide_row_major_partition_witness :
    (Rectangle.subdivideStep ⟨0, 0, 1, 1⟩ 2 2).length = ((2 : ℤ) * 2).toNat
    ∧ (Rectangle.subdivideStep ⟨0, 0, 1, 1⟩ 2 2)[((1 : ℤ) * 2 + 1).toNat]? =
        some (gridCell ⟨0, 0, 1, 1⟩ 2 2 1 1) :=
  ⟨(subdivide_row_major_partition ⟨0, 0, 1, 1⟩ (by decide) (by decide) 2 2
      (by decide) (by decide)).2.1,
   (subdivide_row_major_partition ⟨0, 0, 1, 1⟩ (by decide) (by decide) 2 2
      (by decide) (by decide)).2.2.1 1 1 (by decide) (by decide) (by decide)
      (by decide)⟩

/-- Witness for C9 on the unit square split 2×2: the first grid cell is
again a valid rectangle. -/
theorem subdivide_preserves_region_validity_witness :
    (gridCell ⟨0, 0, 1, 1⟩ 2 2 0 0).min_x < (gridCell ⟨0, 0, 1, 1⟩ 2 2 0 0).max_x
    ∧ (gridCell ⟨0, 0, 1, 1⟩ 2 2 0 0).min_y < (gridCell ⟨0, 0, 1, 1⟩ 2 2 0 0).max_y :=
  (subdivide_preserves_region_validity ⟨0, 0, 1, 1⟩ (by decide) (by decide) 2 2
    (by decide) (by decide)).1 (gridCell ⟨0, 0, 1, 1⟩ 2 2 0 0)
    ((mem_subdivideStep_iff ⟨0, 0, 1, 1⟩ (by decide) _).mpr ⟨0, by decide, by norm_num⟩)

/-! ### C4: the adaptive refinement guard -/

/-- C4 (amended): for a nonzero `maxRadius` (Python's truthiness guard
`max_radius and ...` skips the radius check entirely when `max_radius`
is `0`, see the C10 theorem) and positive rows/columns: when the radius
of the first sub-region of the single subdivision pass exceeds
`maxRadius`, every sub-region (not only oversized ones) is recursively
re-subdivided with the same rows/columns and the results are flattened
in order; when the first sub-region's radius does not exceed
`maxRadius`, the single-step subdivision is returned unchanged. -/
theorem subdivide_adaptive_first_radius_guard (rad : Rectangle → ℚ) (R : Rectangle)
    (rows cols : ℤ) (hr : 0 < rows) (hc : 0 < cols) (mr : ℚ) (hmr : mr ≠ 0)
    (fuel : ℕ) :
    R.subdivideStep rows cols ≠ []
    ∧ ∀ first rest, R.subdivideStep rows cols = first :: rest →
        (mr < rad first →
          Rectangle.subdivide rad (fuel + 1) R rows (some cols) (some mr) =
            ((R.subdivideStep rows cols).mapM (fun s =>
              Rectangle.subdivide rad fuel s rows (some cols) (some mr))).map
              List.flatten)
        ∧ (¬mr < rad first →
          Rectangle.subdivide rad (fuel + 1) R rows (some cols) (some mr) =
            some (R.subdivideStep rows cols)) := by
  constructor
  · intro hnil
    have hl := subdivideStep_length R rows cols
    rw [hnil] at hl
    have hpos : (0 : ℤ).toNat < (rows * cols).toNat :=
      (Int.toNat_lt_toNat (mul_pos hr hc)).mpr (mul_pos hr hc)
    simp at hl
    omega
  · intro first rest hstep
    have hcons := subdivide_succ_some_cons rad fuel R rows (some cols) mr first rest
      hmr (by rw [Option.getD_some]; exact hstep)
    rw [Option.getD_some] at hcons
    constructor
    · intro hlt
      rw [hcons, if_pos hlt, hstep]
    · intro hlt
      rw [hcons, if_neg hlt, hstep]

/-- Witness for C4 (amended): with a radius measure of 1 km everywhere
and `maxRadius = 10`, the first sub-region does not exceed the cap and
the single-step 3×3 subdivision comes back unchanged. -/
theorem subdivide_adaptive_first_radius_guard_witness :
    Rectangle.subdivide (fun _ => 1) 2 ⟨0, 0, 3, 3⟩ 3 (some 3) (some 10) =
      some (Rectangle.subdivideStep ⟨0, 0, 3, 3⟩ 3 3) := by
  obtain ⟨hne, hcases⟩ := subdivide_adaptive_first_radius_guard (fun _ => 1)
    ⟨0, 0, 3, 3⟩ 3 3 (by decide) (by decide) 10 (by decide) 1
  cases hstep : Rectangle.subdivideStep ⟨0, 0, 3, 3⟩ 3 3 with
  | nil => exact absurd hstep hne
  | cons first rest =>
    rw [← hstep]
    exact (hcases first rest hstep).2 (by show ¬(10 : ℚ) < 1; decide)

/-- Counterexample to C4 as stated: `maxRadius = 0` is supplied and the
radius measure reports 1 for every rectangle, so the first sub-region's
radius (1) exceeds `maxRadius` (0); the claim then requires the
flattened recursive refinement (81 sub-regions here), but the code
returns the single-step subdivision (9 sub-regions) because the
truthiness guard treats a zero `max_radius` as absent. -/
theorem subdivide_adaptive_zero_max_radius_refuted :
    (0 : ℚ) < (fun _ => (1 : ℚ)) ((Rectangle.subdivideStep ⟨0, 0, 3, 3⟩ 3 3).headI)
    ∧ Option.map List.length
        (Rectangle.subdivide (fun _ => 1) 2 ⟨0, 0, 3, 3⟩ 3 (some 3) (some 0)) =
        some 9
    ∧ Option.map List.length
        (((Rectangle.subdivideStep ⟨0, 0, 3, 3⟩ 3 3).mapM (fun s =>
          Rectangle.subdivide (fun _ => 1) 1 s 3 (some 3) (some 0))).map
          List.flatten) = some 81
    ∧ Rectangle.subdivide (fun _ => 1) 2 ⟨0, 0, 3, 3⟩ 3 (some 3) (some 0) ≠
        ((Rectangle.subdivideStep ⟨0, 0, 3, 3⟩ 3 3).mapM (fun s =>
          Rectangle.subdivide (fun _ => 1) 1 s 3 (some 3) (some 0))).map
          List.flatten := by
  refine ⟨by decide, by decide, by decide, fun heq => ?_⟩
  have h1 : Option.map List.length
      (Rectangle.subdivide (fun _ => 1) 2 ⟨0, 0, 3, 3⟩ 3 (some 3) (some 0)) =
      some 9 := by decide
  have h2 : Option.map List.length
      (((Rectangle.subdivideStep ⟨0, 0, 3, 3⟩ 3 3).mapM (fun s =>
        Rectangle.subdivide (fun _ => 1) 1 s 3 (some 3) (some 0))).map
        List.flatten) = some 81 := by decide
  rw [heq] at h1
  exact absurd (h1.symm.trans h2) (by decide)

end HerePoi
